import Mathlib

/-!
Verification of the cryptographic primitive layer of private-join-and-compute
(`src/crypto/context.cc`), shallowly embedded over `Nat`.

Big integers (OpenSSL `BIGNUM` via the repository's `BigNum` wrapper) are
non-negative throughout this core, so they are embedded as `Nat`.  The external
digest/HMAC/randomness engine (OpenSSL) is a trusted black box: its hash and
HMAC functions appear as function parameters, and the entropy it supplies
appears as explicit `Nat` (or `Nat → Nat`) parameters, so every theorem
quantifies over all possible engine behaviours.

Fatal aborts are made explicit: glog `CHECK`/`CHECK_GE`/`CHECK_LE` failures
(precondition violations with a descriptive message, raised before any
cryptographic call) map to `Abort.precond`, while `CRYPTO_CHECK` failures (an
underlying engine call reported failure) map to `Abort.engine`.
-/

namespace PJC

/-- The two fatal-abort paths of `context.cc`: `precond` for a failed glog
`CHECK` on an argument (raised before the cryptographic operation), `engine`
for a failed `CRYPTO_CHECK` around an engine call. -/
inductive Abort where
  | precond
  | engine
deriving DecidableEq

/-- Modelled from the spec: `BigNum::BitLength` (OpenSSL `BN_num_bits`), the
bit length of a non-negative integer; `bitLength 0 = 0`. -/
def bitLength (n : Nat) : Nat := Nat.size n

/-- Modelled from the spec: `BigNum::ToBytes` (OpenSSL `BN_bn2bin`), the
minimal big-endian byte serialization; `0` serializes to the empty string. -/
def natToBytes : Nat → List Nat
  | 0 => []
  | n + 1 => natToBytes ((n + 1) / 256) ++ [(n + 1) % 256]

/-! ### Digest engine state machine (`evp_md_ctx_`)

`Context` owns one mutable `EVP_MD_CTX`.  Its relevant state is which
algorithm it was last initialized for and the bytes absorbed since that
initialization.  `EVP_DigestInit_ex` discards all prior state. -/

/-- The two digest algorithms `context.cc` selects (`EVP_sha256`, `EVP_sha512`). -/
inductive HashAlg where
  | sha256
  | sha512
deriving DecidableEq

/-- The mutable digest state held by a `Context`: the algorithm it is
initialized for (none before any init) and the bytes absorbed since init. -/
structure MdCtx where
  alg : Option HashAlg
  buf : List Nat
deriving DecidableEq

/-- `EVP_DigestInit_ex`: fully reinitializes the digest state for `a`,
discarding whatever the context held before. -/
def evpDigestInitEx (a : HashAlg) (_ctx : MdCtx) : MdCtx :=
  { alg := some a, buf := [] }

/-- `EVP_DigestUpdate`: absorbs `bytes` into the digest state. -/
def evpDigestUpdate (ctx : MdCtx) (bytes : List Nat) : MdCtx :=
  { alg := ctx.alg, buf := ctx.buf ++ bytes }

/-- `EVP_DigestFinal_ex`: produces the digest of the absorbed bytes under the
initialized algorithm.  `f256` and `f512` abstract the engine's SHA-256 and
SHA-512 compression (external black box). -/
def evpDigestFinalEx (f256 f512 : List Nat → List Nat) (ctx : MdCtx) : List Nat :=
  match ctx.alg with
  | some HashAlg.sha256 => f256 ctx.buf
  | some HashAlg.sha512 => f512 ctx.buf
  | none => []

/-- `Context::Sha256String`: init-for-SHA-256, update with `bytes`, finalize.
Returns the digest together with the digest state the context is left in. -/
def sha256String (f256 f512 : List Nat → List Nat) (ctx : MdCtx) (bytes : List Nat) :
    List Nat × MdCtx :=
  let c1 := evpDigestInitEx HashAlg.sha256 ctx
  let c2 := evpDigestUpdate c1 bytes
  (evpDigestFinalEx f256 f512 c2, c2)

/-- `Context::Sha512String`: init-for-SHA-512, update with `bytes`, finalize. -/
def sha512String (f256 f512 : List Nat → List Nat) (ctx : MdCtx) (bytes : List Nat) :
    List Nat × MdCtx :=
  let c1 := evpDigestInitEx HashAlg.sha512 ctx
  let c2 := evpDigestUpdate c1 bytes
  (evpDigestFinalEx f256 f512 c2, c2)

/-! ### Randomness operations -/

/-- Modelled from the spec: OpenSSL `BN_rand_range(r, range)` draws a uniform
value in `[0, range)`; it reports failure (return value 0) when `range` is
zero, since the target range is empty.  The entropy consumed is abstracted as
`e`, so `e % range` ranges over every possible output. -/
def bnRandRange (e : Nat) (range : Nat) : Option Nat :=
  if range = 0 then none else some (e % range)

/-- `Context::GenerateRandLessThan`: calls `BN_rand_range` under
`CRYPTO_CHECK`, so an engine failure is a fatal `engine` abort.  There is no
precondition `CHECK` in this function. -/
def generateRandLessThan (e : Nat) (maxValue : Nat) : Except Abort Nat :=
  match bnRandRange e maxValue with
  | none => Except.error Abort.engine
  | some r => Except.ok r

/-- `Context::GenerateRandBetween`: `CHECK(start < end)`, then
`GenerateRandLessThan(end - start) + start`. -/
def generateRandBetween (e : Nat) (start endv : Nat) : Except Abort Nat :=
  if start < endv then
    match generateRandLessThan e (endv - start) with
    | Except.ok r => Except.ok (r + start)
    | Except.error a => Except.error a
  else Except.error Abort.precond

/-- `Context::GenerateRandomBytes`: `CHECK_GE(num_bytes, 0)` (the argument is
a C++ `int`, so modelled as `Int`), then `RAND_bytes` fills a buffer of
exactly `num_bytes` bytes; the returned string is built with that length.
The engine's random bytes are abstracted as the stream `rnd`. -/
def generateRandomBytes (rnd : Nat → Nat) (numBytes : Int) : Except Abort (List Nat) :=
  if numBytes < 0 then Except.error Abort.precond
  else Except.ok ((List.range numBytes.toNat).map rnd)

/-- Outcome of a fuelled sampling loop: a value, a fatal abort, or fuel
exhaustion (the C++ loop would simply keep iterating). -/
inductive SampleOut where
  | ok (r : Nat)
  | abort (a : Abort)
  | fuelOut
deriving DecidableEq

/-- `Context::RelativelyPrimeRandomLessThan`: sample
`GenerateRandLessThan(num)`, and while `gcd(sample, num) > 1` resample.  The
i-th sample consumes entropy `e i`; `fuel` bounds the number of iterations
modelled (the C++ loop is unbounded). -/
def relativelyPrimeRandomLessThan (e : Nat → Nat) (num : Nat) : Nat → Nat → SampleOut
  | _, 0 => SampleOut.fuelOut
  | i, fuel + 1 =>
    match generateRandLessThan (e i) num with
    | Except.error a => SampleOut.abort a
    | Except.ok randNum =>
      if 1 < Nat.gcd randNum num then relativelyPrimeRandomLessThan e num (i + 1) fuel
      else SampleOut.ok randNum

/-! ### Random Oracle (`Context::RandomOracle`)

The SHA-512 engine call is abstracted as `H : List Nat → Nat`, mapping the
hashed byte string directly to the numeric value of its 64-byte digest (the
source feeds `Sha512String`'s output straight into `CreateBigNum`, i.e.
big-endian bytes-to-integer); a genuine SHA-512 always satisfies
`H b < 2 ^ 512`. -/

/-- The `i`-th 512-bit block of the expansion: the hash of
`(byte-encoding of i) || x`, as in
`Sha512String(CreateBigNum(i).ToBytes().append(x))`. -/
def roBlock (H : List Nat → Nat) (x : List Nat) (i : Nat) : Nat :=
  H (natToBytes i ++ x)

/-- The source's expansion loop: starting from `hash_output = 0`, for
`i = 1 .. k` do `hash_output := hash_output <<< 512 + roBlock i`. -/
def roIter (H : List Nat → Nat) (x : List Nat) (k : Nat) : Nat :=
  (List.range k).foldl (fun acc j => acc * 2 ^ 512 + roBlock H x (j + 1)) 0

/-- `Context::RandomOracle`: with `L = bitLength(max) + 512` and
`k = ceil(L / 512)`, `CHECK(k < 255)` (precondition abort otherwise), build
the `k`-block expansion, drop the `k*512 - L` excess low bits, reduce mod
`max`.  The final `BigNum::Mod` is an engine call that fails on a zero
modulus (`CRYPTO_CHECK`), hence the `engine` abort for `maxValue = 0`. -/
def randomOracle (H : List Nat → Nat) (x : List Nat) (maxValue : Nat) : Except Abort Nat :=
  let outputBitLength := bitLength maxValue + 512
  let iterCount := (outputBitLength + 511) / 512
  if 255 ≤ iterCount then Except.error Abort.precond
  else if maxValue = 0 then Except.error Abort.engine
  else
    let excessBitCount := iterCount * 512 - outputBitLength
    Except.ok (roIter H x iterCount / 2 ^ excessBitCount % maxValue)

/-- Modelled from the spec: the reference counter-mode expansion, written as
the spec states it — the concatenation of the 512-bit hash blocks for
counters `1 .. k` with the `i = 1` block most significant, i.e. block `i`
weighted by `2 ^ (512 * (k - i))`. -/
def refConcatBlocks (H : List Nat → Nat) (x : List Nat) (k : Nat) : Nat :=
  Finset.sum (Finset.range k) (fun j => roBlock H x (j + 1) * 2 ^ (512 * (k - 1 - j)))

/-- Modelled from the spec: the reference random-oracle value — concatenate
the `k` blocks, right-shift by the `k*512 - L` excess bits, reduce modulo
`maxValue`. -/
def refRandomOracle (H : List Nat → Nat) (x : List Nat) (maxValue : Nat) : Nat :=
  let outputBitLength := bitLength maxValue + 512
  let iterCount := (outputBitLength + 511) / 512
  refConcatBlocks H x iterCount / 2 ^ (iterCount * 512 - outputBitLength) % maxValue

/-! ### PRF (`Context::PRF`)

The HMAC-SHA512 engine call is abstracted as `mac : List Nat → List Nat → Nat`
(key, then data), again mapping directly to the numeric value of the 64-byte
tag, since the source feeds the tag bytes into a `BigNum`. -/

/-- Outcome of `Context::PRF`: a value, a failed precondition `CHECK`, or
exhaustion of the modelling fuel (the C++ recursion would simply continue). -/
inductive PrfOut where
  | ok (r : Nat)
  | precondFail
  | fuelOut
deriving DecidableEq

/-- The rejection-sampling recursion of `Context::PRF` after its precondition
checks: hash `data` under `key`, keep the low `bitLength maxValue` bits
(`BigNum::GetLastNBits`, i.e. `% 2 ^ bitLength maxValue`); accept if below
`maxValue`, otherwise recurse on the tag's byte serialization. -/
def prfLoop (mac : List Nat → List Nat → Nat) (key : List Nat) (maxValue : Nat) :
    List Nat → Nat → Option Nat
  | _, 0 => none
  | data, fuel + 1 =>
    let hashBn := mac key data
    let hashBnReduced := hashBn % 2 ^ bitLength maxValue
    if hashBnReduced < maxValue then some hashBnReduced
    else prfLoop mac key maxValue (natToBytes hashBn) fuel

/-- `Context::PRF`: `CHECK_GE(key.size() * 8, 80)` and
`CHECK_LE(max_value.BitLength(), 512)` (precondition aborts, raised before
any HMAC call), then the rejection-sampling recursion. -/
def PRF (mac : List Nat → List Nat → Nat) (key data : List Nat) (maxValue fuel : Nat) :
    PrfOut :=
  if key.length * 8 < 80 then PrfOut.precondFail
  else if 512 < bitLength maxValue then PrfOut.precondFail
  else
    match prfLoop mac key maxValue data fuel with
    | some r => PrfOut.ok r
    | none => PrfOut.fuelOut

/-! ## Helper lemmas -/

/-- With a positive bound, `GenerateRandLessThan` succeeds and returns the
(abstracted) uniform draw `e % maxValue`. -/
theorem generateRandLessThan_pos (e maxValue : Nat) (h : 0 < maxValue) :
    generateRandLessThan e maxValue = Except.ok (e % maxValue) := by
  simp [generateRandLessThan, bnRandRange, h.ne']

/-- Unfolding one iteration of the random-oracle expansion loop. -/
theorem roIter_succ (H : List Nat → Nat) (x : List Nat) (k : Nat) :
    roIter H x (k + 1) = roIter H x k * 2 ^ 512 + roBlock H x (k + 1) := by
  simp [roIter, List.range_succ]

/-- Shifting the `k`-block reference concatenation left by 512 bits reweights
each block `j` to `2 ^ (512 * (k - j))`. -/
theorem refConcatBlocks_mul (H : List Nat → Nat) (x : List Nat) (k : Nat) :
    refConcatBlocks H x k * 2 ^ 512 =
      Finset.sum (Finset.range k) (fun j => roBlock H x (j + 1) * 2 ^ (512 * (k - j))) := by
  rw [refConcatBlocks, Finset.sum_mul]
  refine Finset.sum_congr rfl (fun j hj => ?_)
  rw [Finset.mem_range] at hj
  rw [mul_assoc, ← pow_add, show 512 * (k - 1 - j) + 512 = 512 * (k - j) from by omega]

/-- Peeling the most recent (least significant) block off the reference
concatenation. -/
theorem refConcatBlocks_succ (H : List Nat → Nat) (x : List Nat) (k : Nat) :
    refConcatBlocks H x (k + 1) = refConcatBlocks H x k * 2 ^ 512 + roBlock H x (k + 1) := by
  have h1 : refConcatBlocks H x (k + 1) =
      Finset.sum (Finset.range (k + 1)) (fun j => roBlock H x (j + 1) * 2 ^ (512 * (k - j))) := by
    rw [refConcatBlocks]
    refine Finset.sum_congr rfl (fun j hj => ?_)
    rw [show k + 1 - 1 - j = k - j from by omega]
  rw [h1, Finset.sum_range_succ, refConcatBlocks_mul,
    show 512 * (k - k) = 0 from by omega, pow_zero, mul_one]

/-- The source's iterative shift-and-add loop computes exactly the reference
most-significant-first concatenation of the hash blocks. -/
theorem roIter_eq_refConcatBlocks (H : List Nat → Nat) (x : List Nat) (k : Nat) :
    roIter H x k = refConcatBlocks H x k := by
  induction k with
  | zero => simp [roIter, refConcatBlocks]
  | succ k ih => rw [roIter_succ, refConcatBlocks_succ, ih]

/-- Any value produced by the PRF rejection-sampling loop is below the bound:
a candidate is only returned after passing the `< maxValue` test. -/
theorem prfLoop_lt (mac : List Nat → List Nat → Nat) (key : List Nat) (maxValue : Nat) :
    ∀ fuel data r, prfLoop mac key maxValue data fuel = some r → r < maxValue := by
  intro fuel
  induction fuel with
  | zero => intro data r h; simp [prfLoop] at h
  | succ fuel ih =>
    intro data r h
    simp only [prfLoop] at h
    split at h
    · next hc => cases h; exact hc
    · next hc => exact ih _ r h

/-! ## Claims -/

/-- C1: for every byte string `x` and every `max_value > 0` whose required
expansion width `L = bitLength(max_value) + 512` does not exceed 130048 bits,
`RandomOracle(x, max_value)` equals the reference counter-mode expansion
(SHA-512 blocks for counters `1..k` concatenated most-significant-first,
right-shifted by the `k*512 - L` excess bits, reduced mod `max_value`), and
the result lies in `[0, max_value)`.  The SHA-512 engine is abstracted by any
`H` with 512-bit outputs. -/
theorem randomOracle_matches_reference (H : List Nat → Nat) (x : List Nat) (maxValue : Nat)
    (hmax : 0 < maxValue) (hdom : bitLength maxValue + 512 ≤ 130048)
    (_hH : ∀ b, H b < 2 ^ 512) :
    randomOracle H x maxValue = Except.ok (refRandomOracle H x maxValue) ∧
    refRandomOracle H x maxValue < maxValue := by
  constructor
  · simp only [randomOracle, refRandomOracle]
    rw [if_neg (by omega), if_neg (by omega), roIter_eq_refConcatBlocks]
  · simp only [refRandomOracle]
    exact Nat.mod_lt _ hmax

/-- C1 witness, instantiating the random-oracle correctness theorem at the
all-zero hash function, the empty string, and `max_value = 1`. -/
theorem randomOracle_matches_reference_witness :
    randomOracle (fun _ => 0) [] 1 = Except.ok (refRandomOracle (fun _ => 0) [] 1) ∧
    refRandomOracle (fun _ => 0) [] 1 < 1 :=
  randomOracle_matches_reference (fun _ => 0) [] 1 (by decide)
    (by norm_num [bitLength, Nat.size_one]) (fun b => by positivity)

/-- C4: `RandomOracle(x, max_value)` aborts on its precondition `CHECK`
(raised before any hashing — the statement holds for every hash function `H`)
exactly when the required expansion width `bitLength(max_value) + 512`
exceeds 130048 bits, i.e. exactly when the block count
`ceil((bitLength(max_value) + 512) / 512)` is at least 255. -/
theorem randomOracle_precond_iff (H : List Nat → Nat) (x : List Nat) (maxValue : Nat) :
    randomOracle H x maxValue = Except.error Abort.precond ↔
      130048 < bitLength maxValue + 512 := by
  simp only [randomOracle]
  by_cases h : 255 ≤ (bitLength maxValue + 512 + 511) / 512
  · rw [if_pos h]
    exact iff_of_true rfl (by omega)
  · rw [if_neg h]
    refine iff_of_false ?_ (by omega)
    by_cases h0 : maxValue = 0
    · simp [h0]
    · simp [h0]

/-- C2: for every key of length at least 10 bytes, every data string, and
every `max_value > 0` with `bitLength(max_value) ≤ 512`, any value `PRF`
returns lies in `[0, max_value)`, and `PRF` follows exactly the stated
rejection-sampling recursion: the low `bitLength(max_value)` bits of
`HMAC-SHA512(key, data)` are returned if below `max_value`, otherwise `PRF`
recurses on the full tag's byte serialization with the same key and bound.
The HMAC engine is abstracted by an arbitrary `mac`. -/
theorem PRF_spec (mac : List Nat → List Nat → Nat) (key data : List Nat)
    (maxValue fuel : Nat) (hkey : 10 ≤ key.length) (hbits : bitLength maxValue ≤ 512)
    (_hmax : 0 < maxValue) :
    (∀ r, PRF mac key data maxValue fuel = PrfOut.ok r → r < maxValue) ∧
    PRF mac key data maxValue (fuel + 1) =
      (if mac key data % 2 ^ bitLength maxValue < maxValue
       then PrfOut.ok (mac key data % 2 ^ bitLength maxValue)
       else PRF mac key (natToBytes (mac key data)) maxValue fuel) := by
  have hk8 : ¬ key.length * 8 < 80 := by omega
  have hb : ¬ 512 < bitLength maxValue := by omega
  constructor
  · intro r hr
    rw [PRF, if_neg hk8, if_neg hb] at hr
    cases hp : prfLoop mac key maxValue data fuel with
    | none => rw [hp] at hr; simp at hr
    | some v =>
      rw [hp] at hr
      cases hr
      exact prfLoop_lt mac key maxValue fuel data r hp
  · rw [PRF, if_neg hk8, if_neg hb]
    simp only [prfLoop]
    by_cases hc : mac key data % 2 ^ bitLength maxValue < maxValue
    · rw [if_pos hc, if_pos hc]
    · rw [if_neg hc, if_neg hc, PRF, if_neg hk8, if_neg hb]

/-- C2 witness, instantiating the PRF correctness theorem at the all-zero
HMAC, a 10-byte key, empty data, and `max_value = 1`. -/
theorem PRF_spec_witness :
    (∀ r, PRF (fun _ _ => 0) (List.replicate 10 0) [] 1 0 = PrfOut.ok r → r < 1) ∧
    PRF (fun _ _ => 0) (List.replicate 10 0) [] 1 (0 + 1) =
      (if (fun _ _ => 0 : List Nat → List Nat → Nat) (List.replicate 10 0) [] %
            2 ^ bitLength 1 < 1
       then PrfOut.ok ((fun _ _ => 0 : List Nat → List Nat → Nat) (List.replicate 10 0) [] %
            2 ^ bitLength 1)
       else PRF (fun _ _ => 0) (List.replicate 10 0)
            (natToBytes ((fun _ _ => 0 : List Nat → List Nat → Nat) (List.replicate 10 0) []))
            1 0) :=
  PRF_spec (fun _ _ => 0) (List.replicate 10 0) [] 1 0 (by simp)
    (by norm_num [bitLength, Nat.size_one]) (by decide)

/-- C3: `PRF(key, data, max_value)` fails its precondition `CHECK`s — raised
before any keyed-hash operation, as the statement holds for every HMAC
abstraction `mac` — if and only if the key is shorter than 10 bytes or
`bitLength(max_value)` exceeds 512; when both preconditions hold it never
aborts on a precondition check. -/
theorem PRF_precond_iff (mac : List Nat → List Nat → Nat) (key data : List Nat)
    (maxValue fuel : Nat) :
    PRF mac key data maxValue fuel = PrfOut.precondFail ↔
      (key.length < 10 ∨ 512 < bitLength maxValue) := by
  rw [PRF]
  by_cases h1 : key.length * 8 < 80
  · rw [if_pos h1]
    exact iff_of_true rfl (Or.inl (by omega))
  · rw [if_neg h1]
    by_cases h2 : 512 < bitLength maxValue
    · rw [if_pos h2]
      exact iff_of_true rfl (Or.inr h2)
    · rw [if_neg h2]
      refine iff_of_false ?_ (by omega)
      cases hp : prfLoop mac key maxValue data fuel <;> simp [hp]

/-- C5 counterexample: with a zero bound, `GenerateRandLessThan` does not
abort through a precondition check — the function contains no such check; the
abort it produces is the `CRYPTO_CHECK` engine-failure abort raised because
the underlying `BN_rand_range` call fails. -/
theorem generateRandLessThan_zero_not_precondAbort :
    ¬ generateRandLessThan 0 0 = Except.error Abort.precond := by
  simp [generateRandLessThan, bnRandRange]

/-- C5 amended: for every bound `> 0`, `GenerateRandLessThan` returns a value
in `[0, bound)`; a zero bound aborts fatally, but via the engine-failure path
(`CRYPTO_CHECK` around the failed `BN_rand_range` call, carrying the engine's
error string), not via a precondition check made before the cryptographic
operation. -/
theorem generateRandLessThan_spec (e maxValue : Nat) :
    generateRandLessThan e 0 = Except.error Abort.engine ∧
    (0 < maxValue → ∃ r, generateRandLessThan e maxValue = Except.ok r ∧ r < maxValue) := by
  refine ⟨rfl, fun h => ⟨e % maxValue, generateRandLessThan_pos e maxValue h, Nat.mod_lt e h⟩⟩

/-- C5 witness, instantiating the amended theorem at entropy 3 and bound 2. -/
theorem generateRandLessThan_spec_witness :
    ∃ r, generateRandLessThan 3 2 = Except.ok r ∧ r < 2 :=
  (generateRandLessThan_spec 3 2).2 (by decide)

/-- C6: for all `start < end`, `GenerateRandBetween(start, end)` returns
`start` plus the value drawn by `GenerateRandLessThan(end - start)`, hence a
value in `[start, end)`; if `start ≥ end` the `CHECK(start < end)` aborts
before any sampling. -/
theorem generateRandBetween_spec (e start endv : Nat) :
    (start < endv →
      ∃ r, generateRandLessThan e (endv - start) = Except.ok r ∧
        generateRandBetween e start endv = Except.ok (r + start) ∧
        start ≤ r + start ∧ r + start < endv) ∧
    (endv ≤ start → generateRandBetween e start endv = Except.error Abort.precond) := by
  constructor
  · intro h
    have hpos : 0 < endv - start := by omega
    have hmod := Nat.mod_lt e hpos
    refine ⟨e % (endv - start), generateRandLessThan_pos e _ hpos, ?_, by omega, by omega⟩
    rw [generateRandBetween, if_pos h, generateRandLessThan_pos e _ hpos]
  · intro h
    rw [generateRandBetween, if_neg (by omega)]

/-- C6 witness, instantiating the range-sampling theorem at entropy 0 and the
range `[1, 3)`. -/
theorem generateRandBetween_spec_witness :
    ∃ r, generateRandLessThan 0 (3 - 1) = Except.ok r ∧
      generateRandBetween 0 1 3 = Except.ok (r + 1) ∧ 1 ≤ r + 1 ∧ r + 1 < 3 :=
  (generateRandBetween_spec 0 1 3).1 (by decide)

/-- C7: `GenerateRandomBytes(n)` returns a byte string of exactly `n` bytes
for every `n ≥ 0` (the empty string for `n = 0`), and aborts on its
`CHECK_GE(n, 0)` precondition — before any random generation, as the abort
is independent of the entropy stream — if and only if `n < 0`. -/
theorem generateRandomBytes_spec (rnd : Nat → Nat) (numBytes : Int) :
    (0 ≤ numBytes →
      ∃ l, generateRandomBytes rnd numBytes = Except.ok l ∧ (l.length : Int) = numBytes) ∧
    (numBytes < 0 → generateRandomBytes rnd numBytes = Except.error Abort.precond) := by
  constructor
  · intro h
    refine ⟨(List.range numBytes.toNat).map rnd, ?_, ?_⟩
    · rw [generateRandomBytes, if_neg (by omega)]
    · simp [Int.toNat_of_nonneg h]
  · intro h
    rw [generateRandomBytes, if_pos h]

/-- C7 witness, instantiating the byte-generation theorem at the all-zero
entropy stream and `n = 0` (the empty-string edge case). -/
theorem generateRandomBytes_spec_witness :
    ∃ l, generateRandomBytes (fun _ => 0) 0 = Except.ok l ∧ (l.length : Int) = 0 :=
  (generateRandomBytes_spec (fun _ => 0) 0).1 (by decide)

/-- C8: for every `n > 1`, whenever `RelativelyPrimeRandomLessThan(n)`
returns a value `r`, that value lies in `[0, n)` and satisfies
`gcd(r, n) = 1`; the loop resamples `GenerateRandLessThan(n)` and rejects
exactly the candidates whose gcd with `n` exceeds 1. -/
theorem relativelyPrimeRandomLessThan_spec (e : Nat → Nat) (num : Nat) (hnum : 1 < num) :
    ∀ fuel i r, relativelyPrimeRandomLessThan e num i fuel = SampleOut.ok r →
      r < num ∧ Nat.gcd r num = 1 := by
  intro fuel
  induction fuel with
  | zero => intro i r h; simp [relativelyPrimeRandomLessThan] at h
  | succ fuel ih =>
    intro i r h
    have hpos : 0 < num := by omega
    simp only [relativelyPrimeRandomLessThan, generateRandLessThan_pos (e i) num hpos] at h
    by_cases hg : 1 < Nat.gcd (e i % num) num
    · rw [if_pos hg] at h
      exact ih _ r h
    · rw [if_neg hg] at h
      cases h
      have h2 : Nat.gcd (e i % num) num ≠ 0 := fun hz => by
        rcases Nat.gcd_eq_zero_iff.mp hz with ⟨_, h0⟩
        omega
      exact ⟨Nat.mod_lt _ hpos, by omega⟩

/-- C8 witness, instantiating the coprime-sampling theorem at `n = 2` with an
entropy stream whose first draw is 1 (accepted immediately). -/
theorem relativelyPrimeRandomLessThan_spec_witness :
    (1 : Nat) < 2 ∧ Nat.gcd 1 2 = 1 :=
  relativelyPrimeRandomLessThan_spec (fun _ => 1) 2 (by decide) 1 0 1 (by decide)

/-- C10: `RelativelyPrimeRandomLessThan(1)` accepts its very first sample and
returns 0, for every entropy stream and any remaining fuel: the only draw
below 1 is 0, and `gcd(0, 1) = 1` never triggers the rejection condition. -/
theorem relativelyPrimeRandomLessThan_one (e : Nat → Nat) (i fuel : Nat) :
    relativelyPrimeRandomLessThan e 1 i (fuel + 1) = SampleOut.ok 0 := by
  simp only [relativelyPrimeRandomLessThan,
    generateRandLessThan_pos (e i) 1 (by decide), Nat.mod_one]
  simp

/-- C9: `Hash256` returns a 32-byte string and `Hash512` a 64-byte string
(given a digest engine with standard SHA-256/SHA-512 output sizes), and each
call's output is independent of the digest state the shared context held
beforehand — `EVP_DigestInit_ex` fully reinitializes it — so identical inputs
give identical outputs regardless of interleaved digest calls. -/
theorem hash_digest_spec (f256 f512 : List Nat → List Nat)
    (h256 : ∀ b, (f256 b).length = 32) (h512 : ∀ b, (f512 b).length = 64)
    (ctx ctx' : MdCtx) (b : List Nat) :
    (sha256String f256 f512 ctx b).1 = (sha256String f256 f512 ctx' b).1 ∧
    ((sha256String f256 f512 ctx b).1).length = 32 ∧
    (sha512String f256 f512 ctx b).1 = (sha512String f256 f512 ctx' b).1 ∧
    ((sha512String f256 f512 ctx b).1).length = 64 := by
  refine ⟨rfl, ?_, rfl, ?_⟩
  · simp [sha256String, evpDigestInitEx, evpDigestUpdate, evpDigestFinalEx, h256]
  · simp [sha512String, evpDigestInitEx, evpDigestUpdate, evpDigestFinalEx, h512]

/-- C9 witness, instantiating the digest theorem at constant-output hash
functions, two different prior digest states, and input `[7]`. -/
theorem hash_digest_spec_witness :
    (sha256String (fun _ => List.replicate 32 0) (fun _ => List.replicate 64 0)
        ⟨none, []⟩ [7]).1 =
      (sha256String (fun _ => List.replicate 32 0) (fun _ => List.replicate 64 0)
        ⟨some HashAlg.sha512, [1]⟩ [7]).1 ∧
    ((sha256String (fun _ => List.replicate 32 0) (fun _ => List.replicate 64 0)
        ⟨none, []⟩ [7]).1).length = 32 ∧
    (sha512String (fun _ => List.replicate 32 0) (fun _ => List.replicate 64 0)
        ⟨none, []⟩ [7]).1 =
      (sha512String (fun _ => List.replicate 32 0) (fun _ => List.replicate 64 0)
        ⟨some HashAlg.sha512, [1]⟩ [7]).1 ∧
    ((sha512String (fun _ => List.replicate 32 0) (fun _ => List.replicate 64 0)
        ⟨none, []⟩ [7]).1).length = 64 :=
  hash_digest_spec (fun _ => List.replicate 32 0) (fun _ => List.replicate 64 0)
    (fun _ => by simp) (fun _ => by simp) ⟨none, []⟩ ⟨some HashAlg.sha512, [1]⟩ [7]

end PJC
